import Mathlib

/-!
Shallow embedding of the trial-orchestration core of the `lab-runner` crate
(`src/rust/crates/lab-runner/src/lib.rs`), together with theorems settling
the spec claims about scheduling, retry policy, pruning, trial-state guards,
pause/resume preconditions, and checkpoint-selector resolution.

Filesystem reads (checkpoint-path existence, trial-directory existence) are
abstracted as boolean oracles passed to the embedded functions; everything
else is translated directly from the Rust source.
-/

namespace LabRunner

/-- One scheduler unit: `TrialSlot { variant_idx, task_idx, repl_idx }`. -/
structure TrialSlot where
  variant_idx : Nat
  task_idx : Nat
  repl_idx : Nat
deriving DecidableEq, Repr

/-- `enum SchedulingPolicy { VariantSequential, PairedInterleaved, Randomized }`. -/
inductive SchedulingPolicy where
  | variantSequential
  | pairedInterleaved
  | randomized
deriving DecidableEq, Repr

/-- One step of the 64-bit LCG used by the deterministic shuffle:
`state = state.wrapping_mul(6364136223846793005).wrapping_add(1442695040888963407)`,
modelled as arithmetic modulo `2 ^ 64`. -/
def lcgNext (state : Nat) : Nat :=
  (state * 6364136223846793005 + 1442695040888963407) % 2 ^ 64

/-- `Vec::swap(i, j)` on a list: exchange the elements at positions `i` and
`j`; out-of-bounds indices leave the list unchanged (the runner only calls
it in bounds, with `j ≤ i < len`). -/
def swapIdx {α : Type} (l : List α) (i j : Nat) : List α :=
  match l[i]?, l[j]? with
  | some x, some y => (l.set i y).set j x
  | _, _ => l

/-- The Fisher-Yates loop `for i in (1..slots.len()).rev()` of
`build_trial_schedule`: at index `i = k + 1` the LCG advances first and
`j = (state >> 33) as usize % (i + 1)` selects the swap partner. -/
def fisherYatesGo : Nat → Nat → List TrialSlot → List TrialSlot
  | 0, _, l => l
  | Nat.succ k, state, l =>
      let state2 := lcgNext state
      let j := (state2 >>> 33) % (k + 2)
      fisherYatesGo k state2 (swapIdx l (k + 1) j)

/-- The `variant_sequential` nest of `build_trial_schedule`: variant
outermost, then task, then replication. -/
def variantSequentialSlots (variant_count task_count replications : Nat) : List TrialSlot :=
  (List.range variant_count).flatMap fun v =>
    (List.range task_count).flatMap fun t =>
      (List.range replications).map fun r =>
        { variant_idx := v, task_idx := t, repl_idx := r }

/-- The `paired_interleaved` nest of `build_trial_schedule`: task outermost,
then variant, then replication. -/
def pairedInterleavedSlots (variant_count task_count replications : Nat) : List TrialSlot :=
  (List.range task_count).flatMap fun t =>
    (List.range variant_count).flatMap fun v =>
      (List.range replications).map fun r =>
        { variant_idx := v, task_idx := t, repl_idx := r }

/-- `build_trial_schedule(variant_count, task_count, replications, policy,
random_seed)`: lay out the slot cross product in policy order; the
`randomized` policy shuffles the `variant_sequential` order with the
seed-driven Fisher-Yates loop. -/
def build_trial_schedule (variant_count task_count replications : Nat)
    (policy : SchedulingPolicy) (random_seed : Nat) : List TrialSlot :=
  match policy with
  | .variantSequential => variantSequentialSlots variant_count task_count replications
  | .pairedInterleaved => pairedInterleavedSlots variant_count task_count replications
  | .randomized =>
      let base := variantSequentialSlots variant_count task_count replications
      fisherYatesGo (base.length - 1) random_seed base

/-- One arm of the `match trigger.as_str()` guard chain inside
`should_retry_outcome`. -/
def retry_trigger_fires (outcome exit_status trigger : String) : Bool :=
  if trigger = "error" ∧ outcome = "error" then true
  else if trigger = "failure" ∧ exit_status ≠ "0" then true
  else if trigger = "timeout" ∧ outcome = "timeout" then true
  else false

/-- `should_retry_outcome(outcome, exit_status, retry_on)`: with an empty
policy list, retry on any non-success; otherwise return true at the first
matching trigger. -/
def should_retry_outcome (outcome exit_status : String) (retry_on : List String) : Bool :=
  if retry_on.isEmpty then decide (outcome = "error" ∨ exit_status ≠ "0")
  else retry_on.any (retry_trigger_fires outcome exit_status)

/-- The payload of `trial_state.json` as produced by `write_trial_state`
(the timestamp and ids are omitted: no claim mentions them). -/
structure TrialState where
  status : String
  pause_label : Option String
  checkpoint_selected : Option String
  exit_reason : Option String
deriving DecidableEq, Repr

/-- `write_trial_state(trial_dir, trial_id, status, pause_label,
checkpoint_selected, exit_reason)`: the state document that overwrites
`trial_state.json`. -/
def write_trial_state (status : String)
    (pause_label checkpoint_selected exit_reason : Option String) : TrialState :=
  { status := status, pause_label := pause_label,
    checkpoint_selected := checkpoint_selected, exit_reason := exit_reason }

/-- `impl Drop for TrialStateGuard`: if the guard was not marked done by an
explicit completion, the drop handler overwrites the trial state with
`failed` / `aborted`; otherwise the explicitly written state stands. -/
def trial_state_guard_drop (done : Bool) (current : TrialState) : TrialState :=
  if done then current else write_trial_state "failed" none none (some "aborted")

/-- The `(action, requested_by, label)` tuple returned by
`read_control_action` once JSON defaults have been applied. -/
structure ControlActionState where
  action : String
  requested_by : String
  label : Option String
deriving DecidableEq, Repr

/-- The `pause_requested` test of the schedule loop: the control-action file
is present and ended the trial in `{action: stop, requested_by: lab_pause}`. -/
def pause_requested (cs : Option ControlActionState) : Bool :=
  match cs with
  | some c => decide (c.action = "stop" ∧ c.requested_by = "lab_pause")
  | none => false

/-- What the end-of-trial classification block writes: the trial state, the
run status written immediately after (`paused` on the pause path, `running`
otherwise at the loop bottom), and whether the schedule loop breaks. -/
structure TrialClassification where
  trial_state : TrialState
  run_status_after : String
  loop_breaks : Bool
deriving DecidableEq, Repr

/-- The classification block at the end of each scheduled trial in
`run_experiment_with_behavior` (also shared, minus the pause arm, by the
fork/replay child-trial epilogue): pause wins, else `completed` on exit 0
with a non-error outcome, else `failed` with the matching exit reason.
A missing `outcome` field defaults to `"error"`. -/
def classify_trial_end (cs : Option ControlActionState) (exit_status : String)
    (outcome_field : Option String) : TrialClassification :=
  let plabel := cs.bind (·.label)
  let outcome := outcome_field.getD "error"
  if pause_requested cs then
    { trial_state := write_trial_state "paused" plabel plabel (some "paused_by_user"),
      run_status_after := "paused", loop_breaks := true }
  else if exit_status = "0" ∧ outcome ≠ "error" then
    { trial_state := write_trial_state "completed" none none none,
      run_status_after := "running", loop_breaks := false }
  else if exit_status ≠ "0" then
    { trial_state := write_trial_state "failed" none none (some "harness_exit_nonzero"),
      run_status_after := "running", loop_breaks := false }
  else
    { trial_state := write_trial_state "failed" none none (some "trial_output_error"),
      run_status_after := "running", loop_breaks := false }

/-- How a started trial can end. `abnormal` stands for every early-return
and panic path between guard installation and explicit completion (the `?`
propagations of the trial body); `finished` is the classification epilogue,
which marks the guard done on all of its arms. -/
inductive TrialExitPath where
  | abnormal
  | finished (cs : Option ControlActionState) (exit_status : String)
      (outcome_field : Option String)

/-- The final contents of `trial_state.json` for a trial that was started
(state `running` written, guard installed) and then ended on the given exit
path: explicit completions mark the guard done, every other path leaves the
drop handler to fire. -/
def trial_final_state : TrialExitPath → TrialState
  | .abnormal =>
      trial_state_guard_drop false (write_trial_state "running" none none none)
  | .finished cs es oc =>
      trial_state_guard_drop true (classify_trial_end cs es oc).trial_state

/-- Pointwise update of a per-variant counter map (`BTreeMap` entry write). -/
def updateCount (f : Nat → Nat) (v x : Nat) : Nat → Nat :=
  fun u => if u = v then x else f u

/-- The mutable state of the schedule loop that the pruning filter reads:
per-variant consecutive-failure counters, the pruned set, the pause latch,
and the list of slots actually dispatched. -/
structure ExecutorState where
  consecutive_failures : Nat → Nat
  pruned : Nat → Bool
  run_paused : Bool
  executed : List TrialSlot

/-- Loop state at the top of the schedule loop. -/
def initialExecutorState : ExecutorState :=
  { consecutive_failures := fun _ => 0, pruned := fun _ => false,
    run_paused := false, executed := [] }

/-- The pruning check after classification: with a configured budget, a
variant whose counter reached the budget joins the pruned set. -/
def apply_pruning_check (budget : Option Nat) (st : ExecutorState) (v : Nat) : ExecutorState :=
  match budget with
  | some m =>
      if st.consecutive_failures v ≥ m then
        { st with pruned := fun u => if u = v then true else st.pruned u }
      else st
  | none => st

/-- One iteration of the `'schedule:` loop, driven by the observed trial end
`(control state, exit status, outcome field)`: skip pruned variants, latch
pause and break, otherwise update the variant's consecutive-failure counter
per the classification and run the pruning check. -/
def step_slot (budget : Option Nat) (st : ExecutorState) (slot : TrialSlot)
    (cs : Option ControlActionState) (exit_status : String)
    (outcome_field : Option String) : ExecutorState :=
  if st.run_paused then st
  else if st.pruned slot.variant_idx then st
  else
    let st1 := { st with executed := st.executed ++ [slot] }
    let cl := classify_trial_end cs exit_status outcome_field
    if cl.loop_breaks then { st1 with run_paused := true }
    else
      let fresh :=
        if cl.trial_state.status = "completed" then 0
        else st1.consecutive_failures slot.variant_idx + 1
      let st2 := { st1 with
        consecutive_failures := updateCount st1.consecutive_failures slot.variant_idx fresh }
      apply_pruning_check budget st2 slot.variant_idx

/-- The whole schedule loop: the oracle maps the number of trials dispatched
so far to the observed end of the next trial. -/
def run_schedule (budget : Option Nat)
    (orc : Nat → Option ControlActionState × String × Option String) :
    ExecutorState → List TrialSlot → ExecutorState
  | st, [] => st
  | st, s :: rest =>
      let ob := orc st.executed.length
      run_schedule budget orc (step_slot budget st s ob.1 ob.2.1 ob.2.2) rest

/-- A checkpoint entry of `trial_output.json`: `logical_name`, `path`, and
the numeric `step` (absent when the field is missing or non-numeric). -/
structure Checkpoint where
  logical_name : Option String
  path : Option String
  step : Option Nat
deriving DecidableEq, Repr

/-- The `best_with_step` loop of `resolve_resume_selector`: fold over the
declared checkpoints keeping the current best, replaced only when a strictly
larger step appears (`step <= cur` keeps the incumbent). -/
def bestWithStepFold (checkpoints : List Checkpoint) : Option (Nat × Checkpoint) :=
  checkpoints.foldl
    (fun best cp =>
      match cp.step with
      | some s =>
          match best with
          | some best2 => if s ≤ best2.1 then some best2 else some (s, cp)
          | none => some (s, cp)
      | none => best)
    none

/-- Reference recursion for `bestWithStepFold`: the first checkpoint (from
the left) attaining the maximal numeric step, or `none` when no checkpoint
carries a step. -/
def firstMaxStep : List Checkpoint → Option (Nat × Checkpoint)
  | [] => none
  | cp :: rest =>
      match cp.step, firstMaxStep rest with
      | none, r => r
      | some s, none => some (s, cp)
      | some s, some r => if r.1 > s then some r else some (s, cp)

/-- Combination of two fold states of the `best_with_step` loop: the larger
step wins and the left (earlier) operand wins ties. -/
def mergeBest : Option (Nat × Checkpoint) → Option (Nat × Checkpoint) → Option (Nat × Checkpoint)
  | none, r => r
  | some b, none => some b
  | some b, some r => if r.1 > b.1 then some r else some b

/-- The token taken from a chosen checkpoint at the end of
`resolve_resume_selector`: `logical_name` if present, else `path`, else the
`resume_no_checkpoint_token` error. -/
def checkpoint_token (cp : Checkpoint) : Except String String :=
  match cp.logical_name with
  | some n => Except.ok ("checkpoint:" ++ n)
  | none =>
      match cp.path with
      | some p => Except.ok ("checkpoint:" ++ p)
      | none => Except.error "resume_no_checkpoint_token"

/-- `resolve_resume_selector(trial_dir, preferred_label)` over the declared
checkpoint list of the paused trial's `trial_output.json`. -/
def resolve_resume_selector (checkpoints : List Checkpoint)
    (preferred_label : Option String) : Except String String :=
  if checkpoints.isEmpty then Except.error "resume_no_checkpoint"
  else
    match preferred_label with
    | some label =>
        if checkpoints.any fun cp =>
            cp.logical_name == some label || cp.path == some label then
          Except.ok ("checkpoint:" ++ label)
        else Except.error "resume_checkpoint_not_found"
    | none =>
        let chosen :=
          match bestWithStepFold checkpoints with
          | some best => some best.2
          | none => checkpoints.getLast?
        match chosen with
        | none => Except.error "resume_no_checkpoint"
        | some cp => checkpoint_token cp

/-- The selector-label derivation of `resume_run`:
`label.or(pause_label)` — the explicit label if supplied, else the
`pause_label` stored in trial state. -/
def resume_preferred_label (explicit pause_label : Option String) : Option String :=
  explicit <|> pause_label

/-- `enum ForkSelector { Checkpoint(name), Step(n), EventSeq(n) }`. -/
inductive ForkSelector where
  | checkpoint (name : String)
  | step (n : Nat)
  | eventSeq (n : Nat)
deriving DecidableEq, Repr

/-- `Iterator::max_by_key` over `(step, checkpoint)` pairs: the maximal key
wins and among equal keys the last element is returned. -/
def maxByKeyLast : List (Nat × Checkpoint) → Option (Nat × Checkpoint)
  | [] => none
  | x :: rest =>
      match maxByKeyLast rest with
      | none => some x
      | some b => if b.1 ≥ x.1 then some b else some x

/-- The `filter_map` + `filter` stage of the `Step`/`EventSeq` arms of
`resolve_selector_checkpoint`: checkpoints carrying a numeric step at most
`n`, paired with their steps. -/
def steppedAtMost (checkpoints : List Checkpoint) (n : Nat) : List (Nat × Checkpoint) :=
  (checkpoints.filterMap fun cp => cp.step.map fun s => (s, cp)).filter
    fun p => p.1 ≤ n

/-- The selection stage of `resolve_selector_checkpoint`: exact
name-or-path match for `checkpoint:`, largest step at most `n` for `step:`
and `event_seq:`. -/
def select_checkpoint (sel : ForkSelector) (checkpoints : List Checkpoint) :
    Option Checkpoint :=
  match sel with
  | .checkpoint name =>
      checkpoints.find? fun cp =>
        cp.logical_name == some name || cp.path == some name
  | .step n => (maxByKeyLast (steppedAtMost checkpoints n)).map Prod.snd
  | .eventSeq n => (maxByKeyLast (steppedAtMost checkpoints n)).map Prod.snd

/-- `str::strip_prefix`: the remainder of `s` after `pre`, when `pre` leads. -/
def stripLeading (s pre : String) : Option String :=
  if pre.isPrefixOf s then some (s.drop pre.length) else none

/-- `str::trim_start_matches('/')`: drop every leading slash. -/
def trimLeadingSlashes (s : String) : String :=
  s.dropWhile fun c => c == '/'

/-- `Path::join` on the string model of paths. -/
def joinPath (a b : String) : String :=
  if b.isEmpty then a else a ++ "/" ++ b

/-- `Path::is_absolute` on the string model of paths. -/
def path_is_absolute (s : String) : Bool :=
  "/".isPrefixOf s

/-- `resolve_event_path_for_trial(events_path, trial_dir, _)`: map the five
container-root namespaces into the trial directory, keep other absolute
paths, and anchor relative paths under the trial workspace. -/
def resolve_event_path_for_trial (events_path trial_dir : String) : String :=
  match stripLeading events_path "/state" with
  | some rest => joinPath (joinPath trial_dir "state") (trimLeadingSlashes rest)
  | none =>
  match stripLeading events_path "/out" with
  | some rest => joinPath (joinPath trial_dir "out") (trimLeadingSlashes rest)
  | none =>
  match stripLeading events_path "/workspace" with
  | some rest => joinPath (joinPath trial_dir "workspace") (trimLeadingSlashes rest)
  | none =>
  match stripLeading events_path "/dataset" with
  | some rest => joinPath (joinPath trial_dir "dataset") (trimLeadingSlashes rest)
  | none =>
  match stripLeading events_path "/tmp" with
  | some rest => joinPath (joinPath trial_dir "tmp") (trimLeadingSlashes rest)
  | none =>
  if path_is_absolute events_path then events_path
  else joinPath (joinPath trial_dir "workspace") events_path

/-- `resolve_selector_checkpoint(selector, trial_output, trial_dir, strict)`
with filesystem existence abstracted by the `fsExists` oracle: returns the
resolved host path of the selected checkpoint, `none` on a non-strict miss,
and `strict_source_unavailable` on a strict miss (no selection, or a
selected checkpoint whose resolved path does not exist). -/
def resolve_selector_checkpoint (sel : ForkSelector) (checkpoints : List Checkpoint)
    (trial_dir : String) (fsExists : String → Bool) (strict : Bool) :
    Except String (Option String) :=
  match select_checkpoint sel checkpoints with
  | none => if strict then Except.error "strict_source_unavailable" else Except.ok none
  | some cp =>
      match cp.path with
      | none => Except.error "invalid_checkpoint_missing_path"
      | some raw =>
          let resolved := resolve_event_path_for_trial raw trial_dir
          if strict ∧ fsExists resolved = false then
            Except.error "strict_source_unavailable"
          else if fsExists resolved then Except.ok (some resolved)
          else Except.ok none

/-- The `fallback_mode` recorded in the fork manifest: `checkpoint` when a
source checkpoint resolved, `input_only` otherwise. -/
def fork_fallback_mode (source_checkpoint : Option String) : String :=
  match source_checkpoint with
  | some _ => "checkpoint"
  | none => "input_only"

/-- `runtime/run_control.json` as read by `pause_run`, with JSON defaults
already applied. -/
structure RunControlState where
  status : String
  run_id : String
  active_trial_id : Option String
  active_control_path : Option String
deriving DecidableEq, Repr

/-- The stable error identifiers of the `pause_run` precondition chain. -/
inductive PauseErr where
  | pause_non_running
  | pause_target_not_active
  | pause_no_active_trial
  | pause_missing_control_path
  | unsupported_for_integration_level
  | pause_requires_events_path
  | pause_trial_not_found
deriving DecidableEq, Repr

/-- The `pause_run` precondition checks after target resolution: control
path present, integration level above `cli_basic`, events path configured,
trial directory present. -/
def pause_preflight_rest (rc : RunControlState) (target : String)
    (integration_level : String) (events_path_cfg : Option String)
    (trialDirExists : String → Bool) : Except PauseErr String :=
  match rc.active_control_path with
  | none => Except.error .pause_missing_control_path
  | some _ =>
      if integration_level = "cli_basic" then
        Except.error .unsupported_for_integration_level
      else
        match events_path_cfg with
        | none => Except.error .pause_requires_events_path
        | some _ =>
            if trialDirExists target then Except.ok target
            else Except.error .pause_trial_not_found

/-- The precondition chain of `pause_run` up to (and including) locating the
trial directory, with filesystem existence abstracted by `trialDirExists`:
run must be running; an explicit target is checked against the active trial
only when an active trial is recorded; without an explicit target the
active trial is required. -/
def pause_run_preflight (rc : RunControlState) (trial_id : Option String)
    (integration_level : String) (events_path_cfg : Option String)
    (trialDirExists : String → Bool) : Except PauseErr String :=
  if rc.status ≠ "running" then Except.error .pause_non_running
  else
    match trial_id with
    | some id =>
        match rc.active_trial_id with
        | some active =>
            if active ≠ id then Except.error .pause_target_not_active
            else pause_preflight_rest rc id integration_level events_path_cfg trialDirExists
        | none =>
            pause_preflight_rest rc id integration_level events_path_cfg trialDirExists
    | none =>
        match rc.active_trial_id with
        | some active =>
            pause_preflight_rest rc active integration_level events_path_cfg trialDirExists
        | none => Except.error .pause_no_active_trial


/-! ## Scheduler lemmas -/

theorem cons_set_perm {α : Type} (t : List α) (m : Nat) (h : m < t.length) (a : α) :
    (t[m] :: t.set m a).Perm (a :: t) := by
  induction t generalizing m with
  | nil => simp at h
  | cons b t ih =>
    cases m with
    | zero => simpa using List.Perm.swap a b t
    | succ k =>
      simp only [List.getElem_cons_succ, List.set_cons_succ]
      have hk : k < t.length := by simpa using h
      exact ((List.Perm.swap b t[k] (t.set k a)).trans
        ((List.Perm.cons b (ih k hk)).trans (List.Perm.swap a b t)))

theorem set_set_swap_perm {α : Type} (l : List α) (i j : Nat) (hi : i < l.length)
    (hj : j < l.length) : ((l.set i l[j]).set j l[i]).Perm l := by
  induction l generalizing i j with
  | nil => simp at hi
  | cons a t ih =>
    cases i with
    | zero =>
      cases j with
      | zero => simp
      | succ k =>
        have hk : k < t.length := by simpa using hj
        simp only [List.getElem_cons_succ, List.getElem_cons_zero, List.set_cons_zero,
          List.set_cons_succ]
        exact cons_set_perm t k hk a
    | succ m =>
      have hm : m < t.length := by simpa using hi
      cases j with
      | zero =>
        simp only [List.getElem_cons_succ, List.getElem_cons_zero, List.set_cons_succ,
          List.set_cons_zero]
        exact cons_set_perm t m hm a
      | succ k =>
        have hk : k < t.length := by simpa using hj
        simp only [List.getElem_cons_succ, List.set_cons_succ]
        exact (ih m k hm hk).cons a

theorem swapIdx_perm {α : Type} (l : List α) (i j : Nat) : (swapIdx l i j).Perm l := by
  unfold swapIdx
  split
  · next x y hx hy =>
    have hi : i < l.length := by
      by_contra h
      simp [List.getElem?_eq_none (Nat.le_of_not_lt h)] at hx
    have hj : j < l.length := by
      by_contra h
      simp [List.getElem?_eq_none (Nat.le_of_not_lt h)] at hy
    have hx2 : x = l[i] := by
      have := List.getElem?_eq_getElem hi
      rw [this] at hx; exact (Option.some_inj.mp hx).symm
    have hy2 : y = l[j] := by
      have := List.getElem?_eq_getElem hj
      rw [this] at hy; exact (Option.some_inj.mp hy).symm
    subst hx2; subst hy2
    exact set_set_swap_perm l i j hi hj
  · exact List.Perm.refl l

theorem fisherYatesGo_perm (n : Nat) : ∀ (state : Nat) (l : List TrialSlot),
    (fisherYatesGo n state l).Perm l := by
  induction n with
  | zero => intro state l; exact List.Perm.refl l
  | succ k ih =>
    intro state l
    exact (ih _ _).trans (swapIdx_perm l (k + 1) _)

theorem variantSequentialSlots_nodup (V T R : Nat) :
    (variantSequentialSlots V T R).Nodup := by
  unfold variantSequentialSlots
  rw [List.nodup_flatMap]
  constructor
  · intro v hv
    rw [List.nodup_flatMap]
    constructor
    · intro t ht
      exact (List.nodup_range R).map (fun a b h => by simpa using congrArg TrialSlot.repl_idx h)
    · refine List.Pairwise.imp ?_ (List.pairwise_lt_range T)
      intro a b hab x hx hy
      simp only [List.mem_map, List.mem_range] at hx hy
      obtain ⟨ra, _, rfl⟩ := hx
      obtain ⟨rb, _, hxy⟩ := hy
      have : b = a := by simpa using congrArg TrialSlot.task_idx hxy
      omega
  · refine List.Pairwise.imp ?_ (List.pairwise_lt_range V)
    intro a b hab x hx hy
    simp only [List.mem_flatMap, List.mem_map, List.mem_range] at hx hy
    obtain ⟨ta, _, ra, _, rfl⟩ := hx
    obtain ⟨tb, _, rb, _, hxy⟩ := hy
    have : b = a := by simpa using congrArg TrialSlot.variant_idx hxy
    omega

theorem mem_variantSequentialSlots {V T R v t r : Nat} (hv : v < V) (ht : t < T)
    (hr : r < R) : (⟨v, t, r⟩ : TrialSlot) ∈ variantSequentialSlots V T R := by
  unfold variantSequentialSlots
  simp only [List.mem_flatMap, List.mem_map, List.mem_range]
  exact ⟨v, hv, t, ht, r, hr, rfl⟩

theorem variantSequentialSlots_length (V T R : Nat) :
    (variantSequentialSlots V T R).length = V * T * R := by
  unfold variantSequentialSlots
  simp [List.length_flatMap, Function.comp_def, List.map_map, Nat.mul_assoc]

theorem pairedInterleavedSlots_nodup (V T R : Nat) :
    (pairedInterleavedSlots V T R).Nodup := by
  unfold pairedInterleavedSlots
  rw [List.nodup_flatMap]
  constructor
  · intro t ht
    rw [List.nodup_flatMap]
    constructor
    · intro v hv
      exact (List.nodup_range R).map (fun a b h => by simpa using congrArg TrialSlot.repl_idx h)
    · refine List.Pairwise.imp ?_ (List.pairwise_lt_range V)
      intro a b hab x hx hy
      simp only [List.mem_map, List.mem_range] at hx hy
      obtain ⟨ra, _, rfl⟩ := hx
      obtain ⟨rb, _, hxy⟩ := hy
      have : b = a := by simpa using congrArg TrialSlot.variant_idx hxy
      omega
  · refine List.Pairwise.imp ?_ (List.pairwise_lt_range T)
    intro a b hab x hx hy
    simp only [List.mem_flatMap, List.mem_map, List.mem_range] at hx hy
    obtain ⟨va, _, ra, _, rfl⟩ := hx
    obtain ⟨vb, _, rb, _, hxy⟩ := hy
    have : b = a := by simpa using congrArg TrialSlot.task_idx hxy
    omega

theorem mem_pairedInterleavedSlots {V T R v t r : Nat} (hv : v < V) (ht : t < T)
    (hr : r < R) : (⟨v, t, r⟩ : TrialSlot) ∈ pairedInterleavedSlots V T R := by
  unfold pairedInterleavedSlots
  simp only [List.mem_flatMap, List.mem_map, List.mem_range]
  exact ⟨t, ht, v, hv, r, hr, rfl⟩

theorem pairedInterleavedSlots_length (V T R : Nat) :
    (pairedInterleavedSlots V T R).length = V * T * R := by
  unfold pairedInterleavedSlots
  simp [List.length_flatMap, Function.comp_def, List.map_map]
  ring

theorem paired_task_monotone (V T R : Nat) :
    List.Pairwise (fun a b : TrialSlot => a.task_idx ≤ b.task_idx)
      (pairedInterleavedSlots V T R) := by
  unfold pairedInterleavedSlots
  rw [List.pairwise_flatMap]
  constructor
  · intro t ht
    refine List.pairwise_of_forall_mem_list ?_
    intro x hx y hy
    simp only [List.mem_flatMap, List.mem_map, List.mem_range] at hx hy
    obtain ⟨va, _, ra, _, rfl⟩ := hx
    obtain ⟨vb, _, rb, _, rfl⟩ := hy
    exact Nat.le_refl t
  · refine List.Pairwise.imp ?_ (List.pairwise_lt_range T)
    intro a b hab x hx y hy
    simp only [List.mem_flatMap, List.mem_map, List.mem_range] at hx hy
    obtain ⟨va, _, ra, _, rfl⟩ := hx
    obtain ⟨vb, _, rb, _, rfl⟩ := hy
    exact Nat.le_of_lt hab

/-! ## Claim theorems: scheduling -/

/-- C2: for every variant count `V`, task count `T`, replication count `R`,
every scheduling policy, and every seed, `build_trial_schedule` returns
exactly `V * T * R` slots and each triple `(v, t, r)` with `v < V`, `t < T`,
`r < R` occurs exactly once. -/
theorem build_trial_schedule_complete (V T R : Nat) (policy : SchedulingPolicy)
    (seed : Nat) :
    (build_trial_schedule V T R policy seed).length = V * T * R ∧
    ∀ v t r : Nat, v < V → t < T → r < R →
      (build_trial_schedule V T R policy seed).count ⟨v, t, r⟩ = 1 := by
  cases policy with
  | variantSequential =>
    refine ⟨variantSequentialSlots_length V T R, ?_⟩
    intro v t r hv ht hr
    exact List.count_eq_one_of_mem (variantSequentialSlots_nodup V T R)
      (mem_variantSequentialSlots hv ht hr)
  | pairedInterleaved =>
    refine ⟨pairedInterleavedSlots_length V T R, ?_⟩
    intro v t r hv ht hr
    exact List.count_eq_one_of_mem (pairedInterleavedSlots_nodup V T R)
      (mem_pairedInterleavedSlots hv ht hr)
  | randomized =>
    have hperm := fisherYatesGo_perm ((variantSequentialSlots V T R).length - 1) seed
      (variantSequentialSlots V T R)
    constructor
    · simpa [build_trial_schedule, hperm.length_eq] using variantSequentialSlots_length V T R
    · intro v t r hv ht hr
      show (fisherYatesGo _ _ _).count _ = 1
      rw [hperm.count_eq]
      exact List.count_eq_one_of_mem (variantSequentialSlots_nodup V T R)
        (mem_variantSequentialSlots hv ht hr)

/-- C2 witness: the completeness theorem instantiated at `V = 2`, `T = 3`,
`R = 2`, the randomized policy, seed 1337, and the triple `(1, 2, 0)`. -/
theorem build_trial_schedule_complete_witness :
    (build_trial_schedule 2 3 2 .randomized 1337).length = 2 * 3 * 2 ∧
    (build_trial_schedule 2 3 2 .randomized 1337).count ⟨1, 2, 0⟩ = 1 :=
  ⟨(build_trial_schedule_complete 2 3 2 .randomized 1337).1,
   (build_trial_schedule_complete 2 3 2 .randomized 1337).2 1 2 0
     (by decide) (by decide) (by decide)⟩

/-- C8: under `paired_interleaved` the task index is the outermost loop:
slots are ordered with every slot of a task preceding every slot of any
later task, and for `V = 2`, `T = 3`, `R = 2` the first four slots are all
task 0 with variants `(0, 0, 1, 1)` and replications `(0, 1, 0, 1)`. -/
theorem paired_interleaved_order :
    (∀ V T R seed, List.Pairwise (fun a b : TrialSlot => a.task_idx ≤ b.task_idx)
      (build_trial_schedule V T R .pairedInterleaved seed)) ∧
    ∀ seed, (build_trial_schedule 2 3 2 .pairedInterleaved seed).take 4 =
      [⟨0, 0, 0⟩, ⟨0, 0, 1⟩, ⟨1, 0, 0⟩, ⟨1, 0, 1⟩] := by
  constructor
  · intro V T R seed
    exact paired_task_monotone V T R
  · intro seed
    show (pairedInterleavedSlots 2 3 2).take 4 = _
    decide

/-! ## Claim theorems: retry policy -/

theorem retry_trigger_fires_iff (outcome es t : String) :
    retry_trigger_fires outcome es t = true ↔
      ((t = "error" ∧ outcome = "error") ∨ (t = "failure" ∧ es ≠ "0")
        ∨ (t = "timeout" ∧ outcome = "timeout")) := by
  unfold retry_trigger_fires
  split_ifs with h1 h2 h3 <;> simp_all

/-- C5: the retry predicate holds exactly when the policy list is empty and
the trial was a non-success (nonzero exit or outcome `error`), or the list
names `error` / `failure` / `timeout` and the corresponding observation
matches. -/
theorem should_retry_outcome_spec (outcome es : String) (retry_on : List String) :
    should_retry_outcome outcome es retry_on = true ↔
      ((retry_on = [] ∧ (es ≠ "0" ∨ outcome = "error"))
       ∨ ("error" ∈ retry_on ∧ outcome = "error")
       ∨ ("failure" ∈ retry_on ∧ es ≠ "0")
       ∨ ("timeout" ∈ retry_on ∧ outcome = "timeout")) := by
  unfold should_retry_outcome
  by_cases he : retry_on = []
  · subst he
    simp
    tauto
  · rw [if_neg (by simpa [List.isEmpty_iff] using he)]
    rw [List.any_eq_true]
    constructor
    · rintro ⟨t, ht, hf⟩
      rcases (retry_trigger_fires_iff outcome es t).mp hf with ⟨rfl, h⟩ | ⟨rfl, h⟩ | ⟨rfl, h⟩
      · exact Or.inr (Or.inl ⟨ht, h⟩)
      · exact Or.inr (Or.inr (Or.inl ⟨ht, h⟩))
      · exact Or.inr (Or.inr (Or.inr ⟨ht, h⟩))
    · rintro (⟨h, _⟩ | ⟨hm, h⟩ | ⟨hm, h⟩ | ⟨hm, h⟩)
      · exact absurd h he
      · exact ⟨"error", hm, (retry_trigger_fires_iff outcome es _).mpr (Or.inl ⟨rfl, h⟩)⟩
      · exact ⟨"failure", hm,
          (retry_trigger_fires_iff outcome es _).mpr (Or.inr (Or.inl ⟨rfl, h⟩))⟩
      · exact ⟨"timeout", hm,
          (retry_trigger_fires_iff outcome es _).mpr (Or.inr (Or.inr ⟨rfl, h⟩))⟩

/-! ## Claim theorems: trial-state guard and classification -/

theorem classify_status_cases (cs : Option ControlActionState) (es : String)
    (oc : Option String) :
    (classify_trial_end cs es oc).trial_state.status = "paused"
    ∨ (classify_trial_end cs es oc).trial_state.status = "completed"
    ∨ (classify_trial_end cs es oc).trial_state.status = "failed" := by
  unfold classify_trial_end
  by_cases hp : pause_requested cs = true
  · simp [hp, write_trial_state]
  · by_cases h0 : es = "0" <;> by_cases ho : oc.getD "error" = "error" <;>
      simp [hp, h0, ho, write_trial_state]

/-- C1: whatever exit path a started trial takes, its final
`trial_state.json` status is `completed`, `failed`, or `paused`, never
`running`; every path that does not explicitly complete the trial leaves
the guard to write `failed` with exit reason `aborted`. -/
theorem trial_state_never_running (p : TrialExitPath) :
    ((trial_final_state p).status = "completed"
      ∨ (trial_final_state p).status = "failed"
      ∨ (trial_final_state p).status = "paused")
    ∧ (trial_final_state p).status ≠ "running"
    ∧ (p = .abnormal →
        trial_final_state p = write_trial_state "failed" none none (some "aborted")) := by
  cases p with
  | abnormal =>
    refine ⟨Or.inr (Or.inl rfl), by decide, fun _ => rfl⟩
  | finished cs es oc =>
    have h := classify_status_cases cs es oc
    have hd : trial_final_state (.finished cs es oc)
        = (classify_trial_end cs es oc).trial_state := rfl
    refine ⟨?_, ?_, fun h2 => by cases h2⟩
    · rw [hd]
      tauto
    · rw [hd]
      rcases h with h | h | h <;> rw [h] <;> decide

/-- C1 witness: the guard theorem applied to the abnormal exit path. -/
theorem trial_state_never_running_witness :
    trial_final_state .abnormal = write_trial_state "failed" none none (some "aborted") :=
  (trial_state_never_running .abnormal).2.2 rfl

/-- C4: at the end of a scheduled trial, a control file ending in
`{action: stop, requested_by: lab_pause}` marks the trial and run `paused`
and breaks the loop; otherwise the trial is `completed` exactly when the
exit status is `"0"` and the outcome field is not `"error"`, and `failed`
with `harness_exit_nonzero` on a nonzero exit or `trial_output_error` on an
error outcome at exit 0. -/
theorem classify_trial_end_spec (cs : Option ControlActionState) (es : String)
    (oc : Option String) :
    (pause_requested cs = true ↔
      ∃ a, cs = some a ∧ a.action = "stop" ∧ a.requested_by = "lab_pause")
    ∧ (pause_requested cs = true →
        (classify_trial_end cs es oc).trial_state.status = "paused"
        ∧ (classify_trial_end cs es oc).run_status_after = "paused"
        ∧ (classify_trial_end cs es oc).loop_breaks = true)
    ∧ (pause_requested cs = false →
        (classify_trial_end cs es oc).loop_breaks = false
        ∧ (classify_trial_end cs es oc).run_status_after = "running"
        ∧ ((classify_trial_end cs es oc).trial_state.status = "completed" ↔
            (es = "0" ∧ oc.getD "error" ≠ "error"))
        ∧ ((classify_trial_end cs es oc).trial_state.status ≠ "completed" →
            (classify_trial_end cs es oc).trial_state.status = "failed")
        ∧ (es ≠ "0" →
            (classify_trial_end cs es oc).trial_state.exit_reason
              = some "harness_exit_nonzero")
        ∧ (es = "0" → oc.getD "error" = "error" →
            (classify_trial_end cs es oc).trial_state.exit_reason
              = some "trial_output_error")) := by
  refine ⟨?_, ?_, ?_⟩
  · cases cs with
    | none => simp [pause_requested]
    | some a => simp [pause_requested]
  · intro hp
    simp [classify_trial_end, hp, write_trial_state]
  · intro hp
    unfold classify_trial_end
    by_cases h0 : es = "0" <;> by_cases ho : oc.getD "error" = "error" <;>
      simp [hp, h0, ho, write_trial_state]

/-- C4 witness: the classification theorem applied to a `lab_pause` stop
(trial paused, run paused, loop break) and to a plain nonzero harness exit
(trial failed with `harness_exit_nonzero`). -/
theorem classify_trial_end_spec_witness :
    ((classify_trial_end (some ⟨"stop", "lab_pause", some "manual"⟩) "0"
        (some "success")).trial_state.status = "paused"
      ∧ (classify_trial_end (some ⟨"stop", "lab_pause", some "manual"⟩) "0"
          (some "success")).run_status_after = "paused"
      ∧ (classify_trial_end (some ⟨"stop", "lab_pause", some "manual"⟩) "0"
          (some "success")).loop_breaks = true)
    ∧ (classify_trial_end none "1" (some "success")).trial_state.exit_reason
        = some "harness_exit_nonzero" :=
  ⟨(classify_trial_end_spec (some ⟨"stop", "lab_pause", some "manual"⟩) "0"
      (some "success")).2.1 (by decide),
   ((classify_trial_end_spec none "1" (some "success")).2.2 (by decide)).2.2.2.2.1
     (by decide)⟩

/-! ## Claim theorems: pruning -/

theorem step_slot_pruned_monotone (budget : Option Nat) (st : ExecutorState)
    (slot : TrialSlot) (cs : Option ControlActionState) (es : String)
    (oc : Option String) (v : Nat) (h : st.pruned v = true) :
    (step_slot budget st slot cs es oc).pruned v = true := by
  unfold step_slot apply_pruning_check
  cases budget <;>
    by_cases hp : st.run_paused <;>
    by_cases hpr : st.pruned slot.variant_idx <;>
    simp_all <;>
    split_ifs <;>
    simp_all

theorem step_slot_executed_extends (budget : Option Nat) (st : ExecutorState)
    (slot : TrialSlot) (cs : Option ControlActionState) (es : String)
    (oc : Option String) :
    (step_slot budget st slot cs es oc).executed = st.executed
    ∨ (step_slot budget st slot cs es oc).executed = st.executed ++ [slot] := by
  unfold step_slot apply_pruning_check
  cases budget <;>
    by_cases hp : st.run_paused <;>
    by_cases hpr : st.pruned slot.variant_idx <;>
    simp_all <;>
    split_ifs <;>
    simp_all

theorem step_slot_pruned_skip (budget : Option Nat) (st : ExecutorState)
    (slot : TrialSlot) (cs : Option ControlActionState) (es : String)
    (oc : Option String) (h : st.pruned slot.variant_idx = true) :
    step_slot budget st slot cs es oc = st := by
  unfold step_slot
  by_cases hp : st.run_paused <;> simp [hp, h]

theorem run_schedule_skips_pruned (budget : Option Nat)
    (orc : Nat → Option ControlActionState × String × Option String) (v : Nat) :
    ∀ (slots : List TrialSlot) (st : ExecutorState), st.pruned v = true →
      ∀ s ∈ (run_schedule budget orc st slots).executed,
        s ∈ st.executed ∨ s.variant_idx ≠ v := by
  intro slots
  induction slots with
  | nil => intro st h s hs; exact Or.inl hs
  | cons a rest ih =>
    intro st h s hs
    rw [run_schedule] at hs
    set ob := orc st.executed.length with hob
    have hmono := step_slot_pruned_monotone budget st a ob.1 ob.2.1 ob.2.2 v h
    have hext := step_slot_executed_extends budget st a ob.1 ob.2.1 ob.2.2
    rcases ih (step_slot budget st a ob.1 ob.2.1 ob.2.2) hmono s hs with hmem | hne
    · rcases hext with he | he
      · rw [he] at hmem; exact Or.inl hmem
      · rw [he] at hmem
        rcases List.mem_append.mp hmem with h1 | h2
        · exact Or.inl h1
        · simp only [List.mem_singleton] at h2
          subst h2
          by_cases hv : s.variant_idx = v
          · exfalso
            have : st.pruned s.variant_idx = true := hv ▸ h
            rw [step_slot_pruned_skip budget st s ob.1 ob.2.1 ob.2.2 this] at he
            -- he : st.executed = st.executed ++ [s], impossible
            have := congrArg List.length he
            simp at this
          · exact Or.inr hv
    · exact Or.inr hne

theorem step_slot_counter_invariant (k : Nat) (st : ExecutorState)
    (slot : TrialSlot) (cs : Option ControlActionState) (es : String)
    (oc : Option String)
    (hinv : ∀ v, st.pruned v = false → st.consecutive_failures v < k)
    (hk : 1 ≤ k) (v : Nat)
    (hpf : (step_slot (some k) st slot cs es oc).pruned v = false) :
    (step_slot (some k) st slot cs es oc).consecutive_failures v < k := by
  unfold step_slot apply_pruning_check at hpf ⊢
  by_cases hp : st.run_paused
  · simp only [hp, if_true] at hpf ⊢
    exact hinv v hpf
  · by_cases hpr : st.pruned slot.variant_idx
    · simp only [hp, if_false, Bool.false_eq_true, hpr, if_true] at hpf ⊢
      exact hinv v hpf
    · simp only [hp, hpr, Bool.false_eq_true, if_false] at hpf ⊢
      by_cases hbr : (classify_trial_end cs es oc).loop_breaks = true
      · simp only [hbr, if_true] at hpf ⊢
        exact hinv v hpf
      · simp only [hbr, if_false] at hpf ⊢
        by_cases hcm : (classify_trial_end cs es oc).trial_state.status = "completed" <;>
          simp only [hcm, if_true, if_false] at hpf ⊢ <;>
          split_ifs at hpf ⊢ with hge <;>
          by_cases hv : v = slot.variant_idx <;>
          simp_all [updateCount] <;>
          omega

theorem run_schedule_counter_invariant (k : Nat) (hk : 1 ≤ k)
    (orc : Nat → Option ControlActionState × String × Option String) :
    ∀ (slots : List TrialSlot) (st : ExecutorState),
      (∀ v, st.pruned v = false → st.consecutive_failures v < k) →
      ∀ v, (run_schedule (some k) orc st slots).pruned v = false →
        (run_schedule (some k) orc st slots).consecutive_failures v < k := by
  intro slots
  induction slots with
  | nil => intro st hinv v hpf; exact hinv v hpf
  | cons a rest ih =>
    intro st hinv v hpf
    rw [run_schedule] at hpf ⊢
    exact ih _ (fun u => step_slot_counter_invariant k st a _ _ _ hinv hk u) v hpf

theorem step_slot_failure_prunes (k : Nat) (st : ExecutorState) (slot : TrialSlot)
    (cs : Option ControlActionState) (es : String) (oc : Option String)
    (hp : st.run_paused = false) (hpr : st.pruned slot.variant_idx = false)
    (hbr : (classify_trial_end cs es oc).loop_breaks = false)
    (hfail : (classify_trial_end cs es oc).trial_state.status ≠ "completed")
    (hlt : st.consecutive_failures slot.variant_idx < k) :
    ((step_slot (some k) st slot cs es oc).pruned slot.variant_idx = true ↔
      st.consecutive_failures slot.variant_idx + 1 = k)
    ∧ (step_slot (some k) st slot cs es oc).consecutive_failures slot.variant_idx
        = st.consecutive_failures slot.variant_idx + 1 := by
  unfold step_slot apply_pruning_check
  simp only [hp, hpr, Bool.false_eq_true, if_false, hbr, hfail, ite_false]
  split_ifs with hge <;> simp_all [updateCount] <;> omega

theorem step_slot_success_resets (k : Nat) (hk : 1 ≤ k) (st : ExecutorState)
    (slot : TrialSlot) (cs : Option ControlActionState) (es : String)
    (oc : Option String)
    (hp : st.run_paused = false) (hpr : st.pruned slot.variant_idx = false)
    (hbr : (classify_trial_end cs es oc).loop_breaks = false)
    (hok : (classify_trial_end cs es oc).trial_state.status = "completed") :
    (step_slot (some k) st slot cs es oc).consecutive_failures slot.variant_idx = 0
    ∧ (step_slot (some k) st slot cs es oc).pruned slot.variant_idx = false := by
  unfold step_slot apply_pruning_check
  simp only [hp, hpr, Bool.false_eq_true, if_false, hbr, hok, ite_true]
  split_ifs with hge <;> simp_all [updateCount] <;> omega

/-- C6: with budget `k ≥ 1` configured, a slot of a pruned variant is a
no-op and no later slot of that variant executes; an unpruned variant with a
failed trial is marked pruned exactly when its counter reaches `k` (the
k-th consecutive failure); a completed trial resets the counter to zero
without pruning; and along any run every unpruned variant's counter stays
below `k`. -/
theorem pruning_budget_spec (k : Nat) (hk : 1 ≤ k) :
    (∀ st slot cs es oc, st.pruned slot.variant_idx = true →
      step_slot (some k) st slot cs es oc = st)
    ∧ (∀ orc slots st (v : Nat), st.pruned v = true →
        ∀ s ∈ (run_schedule (some k) orc st slots).executed,
          s ∈ st.executed ∨ s.variant_idx ≠ v)
    ∧ (∀ st slot cs es oc, st.run_paused = false →
        st.pruned slot.variant_idx = false →
        (classify_trial_end cs es oc).loop_breaks = false →
        (classify_trial_end cs es oc).trial_state.status ≠ "completed" →
        st.consecutive_failures slot.variant_idx < k →
        (((step_slot (some k) st slot cs es oc).pruned slot.variant_idx = true ↔
            st.consecutive_failures slot.variant_idx + 1 = k)
          ∧ (step_slot (some k) st slot cs es oc).consecutive_failures slot.variant_idx
              = st.consecutive_failures slot.variant_idx + 1))
    ∧ (∀ st slot cs es oc, st.run_paused = false →
        st.pruned slot.variant_idx = false →
        (classify_trial_end cs es oc).loop_breaks = false →
        (classify_trial_end cs es oc).trial_state.status = "completed" →
        ((step_slot (some k) st slot cs es oc).consecutive_failures slot.variant_idx = 0
          ∧ (step_slot (some k) st slot cs es oc).pruned slot.variant_idx = false))
    ∧ (∀ orc slots (v : Nat),
        (run_schedule (some k) orc initialExecutorState slots).pruned v = false →
        (run_schedule (some k) orc initialExecutorState slots).consecutive_failures v < k) := by
  refine ⟨?_, ?_, ?_, ?_, ?_⟩
  · intro st slot cs es oc h
    exact step_slot_pruned_skip (some k) st slot cs es oc h
  · intro orc slots st v h s hs
    exact run_schedule_skips_pruned (some k) orc v slots st h s hs
  · intro st slot cs es oc hp hpr hbr hfail hlt
    exact step_slot_failure_prunes k st slot cs es oc hp hpr hbr hfail hlt
  · intro st slot cs es oc hp hpr hbr hok
    exact step_slot_success_resets k hk st slot cs es oc hp hpr hbr hok
  · intro orc slots v
    exact run_schedule_counter_invariant k hk orc slots initialExecutorState
      (fun v _ => hk) v

/-- C6 witness: budget 1, first slot of variant 0 fails — the variant is
pruned on that first (k-th) consecutive failure with counter 1. -/
theorem pruning_budget_spec_witness :
    (step_slot (some 1) initialExecutorState ⟨0, 0, 0⟩ none "1"
      (some "failure")).pruned 0 = true
    ∧ (step_slot (some 1) initialExecutorState ⟨0, 0, 0⟩ none "1"
        (some "failure")).consecutive_failures 0 = 1 := by
  have h := (pruning_budget_spec 1 (by decide)).2.2.1 initialExecutorState ⟨0, 0, 0⟩
    none "1" (some "failure") rfl rfl (by decide) (by decide) (by decide)
  exact ⟨h.1.mpr (by decide), h.2⟩

/-! ## Claim theorems: pause preconditions -/

/-- C9: when `pause_run` is given an explicit target while `run_control.json`
records no active trial, the active-trial match check is skipped: the
preflight proceeds to the remaining checks against the given trial and can
never fail with `pause_target_not_active` or `pause_no_active_trial`; when
the remaining preconditions hold it succeeds with the given target. -/
theorem pause_explicit_target_no_active (rc : RunControlState) (id : String)
    (il : String) (ep : Option String) (ex : String → Bool)
    (hrun : rc.status = "running") (hact : rc.active_trial_id = none) :
    pause_run_preflight rc (some id) il ep ex
        = pause_preflight_rest rc id il ep ex
    ∧ pause_run_preflight rc (some id) il ep ex ≠ Except.error .pause_target_not_active
    ∧ pause_run_preflight rc (some id) il ep ex ≠ Except.error .pause_no_active_trial
    ∧ (rc.active_control_path ≠ none → il ≠ "cli_basic" → ep ≠ none →
        ex id = true → pause_run_preflight rc (some id) il ep ex = Except.ok id) := by
  have hmain : pause_run_preflight rc (some id) il ep ex
      = pause_preflight_rest rc id il ep ex := by
    unfold pause_run_preflight
    rw [if_neg (by simp [hrun]), hact]
  have hrest : ∀ e, pause_preflight_rest rc id il ep ex = Except.error e →
      (e ≠ .pause_target_not_active ∧ e ≠ .pause_no_active_trial) := by
    intro e he
    unfold pause_preflight_rest at he
    rcases hc : rc.active_control_path with _ | cp <;> rw [hc] at he <;>
      simp only [] at he
    · obtain rfl : e = .pause_missing_control_path := (Except.error.inj he).symm
      exact ⟨by decide, by decide⟩
    · by_cases h1 : il = "cli_basic"
      · rw [if_pos h1] at he
        simp only [Except.error.injEq] at he
        subst he; exact ⟨by decide, by decide⟩
      · rw [if_neg h1] at he
        rcases hep : ep with _ | p <;> rw [hep] at he <;> simp only [] at he
        · obtain rfl : e = .pause_requires_events_path := (Except.error.inj he).symm
          exact ⟨by decide, by decide⟩
        · by_cases h2 : ex id = true
          · rw [if_pos h2] at he
            cases he
          · rw [if_neg h2] at he
            simp only [Except.error.injEq] at he
            subst he; exact ⟨by decide, by decide⟩
  refine ⟨hmain, ?_, ?_, ?_⟩
  · rw [hmain]
    intro hcontra
    exact (hrest _ hcontra).1 rfl
  · rw [hmain]
    intro hcontra
    exact (hrest _ hcontra).2 rfl
  · intro hcp hil hep hex
    rw [hmain]
    unfold pause_preflight_rest
    rcases hc : rc.active_control_path with _ | cp
    · exact absurd hc hcp
    · rw [if_neg hil]
      rcases he : ep with _ | p
      · exact absurd he hep
      · simp [hex]

/-- C9 witness: running run, no active trial, explicit target `trial_7`,
all later preconditions satisfied — the preflight accepts `trial_7`. -/
theorem pause_explicit_target_no_active_witness :
    pause_run_preflight ⟨"running", "run_1", none, some "ctl"⟩ (some "trial_7")
        "cli_events" (some "/state/events.jsonl") (fun _ => true) = Except.ok "trial_7" :=
  (pause_explicit_target_no_active ⟨"running", "run_1", none, some "ctl"⟩ "trial_7"
    "cli_events" (some "/state/events.jsonl") (fun _ => true) rfl rfl).2.2.2
    (by decide) (by decide) (by decide) rfl

/-! ## Claim theorems: resume selector derivation -/

theorem foldl_best_eq (l : List Checkpoint) : ∀ acc,
    l.foldl
      (fun best cp =>
        match cp.step with
        | some s =>
            match best with
            | some best2 => if s ≤ best2.1 then some best2 else some (s, cp)
            | none => some (s, cp)
        | none => best)
      acc = mergeBest acc (firstMaxStep l) := by
  induction l with
  | nil => intro acc; cases acc <;> rfl
  | cons cp rest ih =>
    intro acc
    rw [List.foldl_cons, ih]
    rcases hs : cp.step with _ | s <;>
      rcases hr : firstMaxStep rest with _ | r <;>
      cases acc <;>
      simp only [firstMaxStep, hs, hr, mergeBest] <;>
      try (split_ifs <;> simp_all [mergeBest] <;> try omega)
    all_goals (try (split_ifs <;> simp_all <;> omega))

theorem bestWithStepFold_eq_firstMaxStep (l : List Checkpoint) :
    bestWithStepFold l = firstMaxStep l := by
  rw [bestWithStepFold, foldl_best_eq]
  cases firstMaxStep l <;> rfl

theorem firstMaxStep_none_iff (l : List Checkpoint) :
    firstMaxStep l = none ↔ ∀ cp ∈ l, cp.step = none := by
  induction l with
  | nil => simp [firstMaxStep]
  | cons cp rest ih =>
    rcases hs : cp.step with _ | s
    · simp only [firstMaxStep, hs]
      simp [hs, ih]
    · rcases hr : firstMaxStep rest with _ | r <;>
        simp only [firstMaxStep, hs, hr] <;>
        [skip; split_ifs] <;>
        simp [hs]

theorem firstMaxStep_first_max (l : List Checkpoint) (s : Nat) (c : Checkpoint)
    (h : firstMaxStep l = some (s, c)) :
    c.step = some s
    ∧ (∀ cp ∈ l, ∀ s', cp.step = some s' → s' ≤ s)
    ∧ ∃ i, ∃ hi : i < l.length, l.get ⟨i, hi⟩ = c
        ∧ ∀ cp ∈ l.take i, ∀ s', cp.step = some s' → s' < s := by
  induction l generalizing s c with
  | nil => cases h
  | cons cp rest ih =>
    rcases hs : cp.step with _ | s0
    · have hrec : firstMaxStep (cp :: rest) = firstMaxStep rest := by
        simp [firstMaxStep, hs]
      rw [hrec] at h
      obtain ⟨hstep, hmax, i, hi, hget, hpre⟩ := ih _ _ h
      refine ⟨hstep, ?_, i + 1, by simpa using hi, by simpa using hget, ?_⟩
      · intro cp2 hm s' hs'
        rcases List.mem_cons.mp hm with rfl | hm2
        · rw [hs] at hs'; cases hs'
        · exact hmax cp2 hm2 s' hs'
      · intro cp2 hm s' hs'
        rw [List.take_succ_cons] at hm
        rcases List.mem_cons.mp hm with rfl | hm2
        · rw [hs] at hs'; cases hs'
        · exact hpre cp2 hm2 s' hs'
    · rcases hr : firstMaxStep rest with _ | ⟨s1, c1⟩
      · have hrec : firstMaxStep (cp :: rest) = some (s0, cp) := by
          simp [firstMaxStep, hs, hr]
        rw [hrec] at h
        obtain ⟨rfl, rfl⟩ : s0 = s ∧ cp = c := by
          have := Option.some_inj.mp h
          exact ⟨congrArg Prod.fst this, congrArg Prod.snd this⟩
        refine ⟨hs, ?_, 0, by simp, by simp, by simp⟩
        intro cp2 hm s' hs'
        rcases List.mem_cons.mp hm with rfl | hm2
        · rw [hs] at hs'; exact le_of_eq (Option.some_inj.mp hs').symm
        · have := (firstMaxStep_none_iff rest).mp hr cp2 hm2
          rw [this] at hs'; cases hs'
      · by_cases hgt : s1 > s0
        · have hrec : firstMaxStep (cp :: rest) = some (s1, c1) := by
            simp [firstMaxStep, hs, hr, hgt]
          rw [hrec] at h
          obtain ⟨rfl, rfl⟩ : s1 = s ∧ c1 = c := by
            have := Option.some_inj.mp h
            exact ⟨congrArg Prod.fst this, congrArg Prod.snd this⟩
          obtain ⟨hstep, hmax, i, hi, hget, hpre⟩ := ih _ _ hr
          refine ⟨hstep, ?_, i + 1, by simpa using hi, by simpa using hget, ?_⟩
          · intro cp2 hm s' hs'
            rcases List.mem_cons.mp hm with rfl | hm2
            · rw [hs] at hs'
              obtain rfl := Option.some_inj.mp hs'
              omega
            · exact hmax cp2 hm2 s' hs'
          · intro cp2 hm s' hs'
            rw [List.take_succ_cons] at hm
            rcases List.mem_cons.mp hm with rfl | hm2
            · rw [hs] at hs'
              obtain rfl := Option.some_inj.mp hs'
              omega
            · exact hpre cp2 hm2 s' hs'
        · have hrec : firstMaxStep (cp :: rest) = some (s0, cp) := by
            simp [firstMaxStep, hs, hr, hgt]
          rw [hrec] at h
          obtain ⟨rfl, rfl⟩ : s0 = s ∧ cp = c := by
            have := Option.some_inj.mp h
            exact ⟨congrArg Prod.fst this, congrArg Prod.snd this⟩
          obtain ⟨hstep, hmax, _⟩ := ih _ _ hr
          refine ⟨hs, ?_, 0, by simp, by simp, by simp⟩
          intro cp2 hm s' hs'
          rcases List.mem_cons.mp hm with rfl | hm2
          · rw [hs] at hs'; exact le_of_eq (Option.some_inj.mp hs').symm
          · have := hmax cp2 hm2 s' hs'
            omega

theorem resolve_resume_selector_best_step (cps : List Checkpoint) (s : Nat)
    (c : Checkpoint) (h : firstMaxStep cps = some (s, c)) :
    resolve_resume_selector cps none = checkpoint_token c := by
  have hne : cps.isEmpty = false := by
    cases cps with
    | nil => cases h
    | cons a t => rfl
  unfold resolve_resume_selector
  rw [hne, bestWithStepFold_eq_firstMaxStep, h]
  simp

theorem resolve_resume_no_step (cps : List Checkpoint) (hne : cps ≠ [])
    (hall : ∀ cp ∈ cps, cp.step = none) :
    resolve_resume_selector cps none = checkpoint_token (cps.getLast hne) := by
  have he : cps.isEmpty = false := by
    cases cps with
    | nil => exact absurd rfl hne
    | cons a t => rfl
  unfold resolve_resume_selector
  rw [he, bestWithStepFold_eq_firstMaxStep, (firstMaxStep_none_iff cps).mpr hall]
  simp [List.getLast?_eq_getLast _ hne]

/-- C3 (amended): resume derives its selector as the explicit label if
supplied, else the stored `pause_label`, else the checkpoint with the
highest numeric step, where a tie on the highest step is won by the
checkpoint that appears EARLIER in the list; with checkpoints
`{a, step 3}` and `{b, step 5}` and no label the derived selector is
`checkpoint:b`. -/
theorem resume_selector_spec :
    (∀ (explicit : String) (pl : Option String),
        resume_preferred_label (some explicit) pl = some explicit
        ∧ resume_preferred_label none pl = pl)
    ∧ (∀ cps (label : String) pl, (cps.any fun cp =>
          cp.logical_name == some label || cp.path == some label) = true →
        resolve_resume_selector cps (resume_preferred_label (some label) pl)
          = Except.ok ("checkpoint:" ++ label))
    ∧ (∀ cps (s : Nat) (c : Checkpoint), firstMaxStep cps = some (s, c) →
        resolve_resume_selector cps none = checkpoint_token c
        ∧ c.step = some s
        ∧ (∀ cp ∈ cps, ∀ s', cp.step = some s' → s' ≤ s)
        ∧ ∃ i, ∃ hi : i < cps.length, cps.get ⟨i, hi⟩ = c
            ∧ ∀ cp ∈ cps.take i, ∀ s', cp.step = some s' → s' < s)
    ∧ resolve_resume_selector
        [⟨some "a", none, some 3⟩, ⟨some "b", none, some 5⟩] none
        = Except.ok "checkpoint:b" := by
  refine ⟨fun explicit pl => ⟨rfl, rfl⟩, ?_, ?_, ?_⟩
  · intro cps label pl hany
    have hne : cps.isEmpty = false := by
      cases cps with
      | nil => cases hany
      | cons a t => rfl
    unfold resolve_resume_selector resume_preferred_label
    rw [hne]
    simp only [Option.some_orElse, Bool.false_eq_true, if_false, hany, if_true]
  · intro cps s c h
    obtain ⟨hstep, hmax, hidx⟩ := firstMaxStep_first_max cps s c h
    exact ⟨resolve_resume_selector_best_step cps s c h, hstep, hmax, hidx⟩
  · rfl

/-- C3 counterexample: with checkpoints `{a, step 5}` and `{b, step 5}` and
no label, the code derives the selector from the FIRST checkpoint (`a`),
not from the later one (`b`) as the claim's tie rule states. -/
theorem resume_selector_tie_counterexample :
    resolve_resume_selector
        [⟨some "a", none, some 5⟩, ⟨some "b", none, some 5⟩] none
      = Except.ok "checkpoint:a"
    ∧ resolve_resume_selector
        [⟨some "a", none, some 5⟩, ⟨some "b", none, some 5⟩] none
      ≠ Except.ok "checkpoint:b" := by
  refine ⟨rfl, ?_⟩
  intro h
  rw [show resolve_resume_selector
      [⟨some "a", none, some 5⟩, ⟨some "b", none, some 5⟩] none
      = Except.ok "checkpoint:a" from rfl] at h
  have := Except.ok.inj h
  simp at this

/-- C10: with no label and no checkpoint carrying a numeric step, resume
selects the last declared checkpoint, using its `logical_name` if present,
else its `path`; with neither, it fails with `resume_no_checkpoint_token`. -/
theorem resume_last_checkpoint_spec (cps : List Checkpoint) (hne : cps ≠ [])
    (hall : ∀ cp ∈ cps, cp.step = none) :
    resolve_resume_selector cps none = checkpoint_token (cps.getLast hne)
    ∧ (∀ n, (cps.getLast hne).logical_name = some n →
        resolve_resume_selector cps none = Except.ok ("checkpoint:" ++ n))
    ∧ ((cps.getLast hne).logical_name = none → ∀ p, (cps.getLast hne).path = some p →
        resolve_resume_selector cps none = Except.ok ("checkpoint:" ++ p))
    ∧ ((cps.getLast hne).logical_name = none → (cps.getLast hne).path = none →
        resolve_resume_selector cps none = Except.error "resume_no_checkpoint_token") := by
  have hbase := resolve_resume_no_step cps hne hall
  refine ⟨hbase, ?_, ?_, ?_⟩
  · intro n hn
    rw [hbase]
    unfold checkpoint_token
    rw [hn]
  · intro hn p hp
    rw [hbase]
    unfold checkpoint_token
    rw [hn, hp]
  · intro hn hp
    rw [hbase]
    unfold checkpoint_token
    rw [hn, hp]

/-- C3 witness: the amended theorem applied to the spec example
`{a, step 3}`, `{b, step 5}` with no label. -/
theorem resume_selector_spec_witness :
    resolve_resume_selector
        [⟨some "a", none, some 3⟩, ⟨some "b", none, some 5⟩] none
      = checkpoint_token ⟨some "b", none, some 5⟩ :=
  (resume_selector_spec.2.2.1
    [⟨some "a", none, some 3⟩, ⟨some "b", none, some 5⟩] 5
    ⟨some "b", none, some 5⟩ rfl).1

/-- C10 witness: a single stepless checkpoint with only a path — resume
selects it by path. -/
theorem resume_last_checkpoint_spec_witness :
    resolve_resume_selector [⟨none, some "/state/cp1", none⟩] none
      = Except.ok ("checkpoint:" ++ "/state/cp1") :=
  (resume_last_checkpoint_spec [⟨none, some "/state/cp1", none⟩]
      (by simp) (by simp)).2.2.1 rfl "/state/cp1" rfl

/-! ## Claim theorems: fork selector resolution -/

theorem maxByKeyLast_spec (l : List (Nat × Checkpoint)) :
    (maxByKeyLast l = none ↔ l = [])
    ∧ ∀ b, maxByKeyLast l = some b → b ∈ l ∧ ∀ x ∈ l, x.1 ≤ b.1 := by
  induction l with
  | nil => exact ⟨by simp [maxByKeyLast], by intro b h; cases h⟩
  | cons x rest ih =>
    constructor
    · constructor
      · intro h
        unfold maxByKeyLast at h
        rcases hr : maxByKeyLast rest with _ | b <;> rw [hr] at h <;>
          simp only [] at h
        · cases h
        · split_ifs at h <;> cases h
      · intro h; cases h
    · intro b h
      unfold maxByKeyLast at h
      rcases hr : maxByKeyLast rest with _ | c <;> rw [hr] at h <;>
        simp only [] at h
      · obtain rfl := Option.some_inj.mp h
        have hre : rest = [] := (ih.1).mp hr
        subst hre
        exact ⟨List.mem_singleton_self x, by intro y hy; simp at hy; subst hy; exact Nat.le_refl _⟩
      · obtain ⟨hmem, hmax⟩ := ih.2 c hr
        split_ifs at h with hge
        · obtain rfl := Option.some_inj.mp h
          refine ⟨List.mem_cons_of_mem x hmem, ?_⟩
          intro y hy
          rcases List.mem_cons.mp hy with rfl | hy2
          · exact hge
          · exact hmax y hy2
        · obtain rfl := Option.some_inj.mp h
          refine ⟨List.mem_cons_self x rest, ?_⟩
          intro y hy
          rcases List.mem_cons.mp hy with rfl | hy2
          · exact Nat.le_refl _
          · exact Nat.le_trans (hmax y hy2) (by omega)

theorem mem_steppedAtMost (cps : List Checkpoint) (n s : Nat) (cp : Checkpoint) :
    (s, cp) ∈ steppedAtMost cps n ↔ cp ∈ cps ∧ cp.step = some s ∧ s ≤ n := by
  unfold steppedAtMost
  rw [List.mem_filter, List.mem_filterMap]
  constructor
  · rintro ⟨⟨c, hc, hmap⟩, hle⟩
    rcases hstep : c.step with _ | s0 <;> rw [hstep] at hmap
    · cases hmap
    · simp only [Option.map_some', Option.some.injEq] at hmap
      obtain ⟨rfl, rfl⟩ : s0 = s ∧ c = cp :=
        ⟨congrArg Prod.fst hmap, congrArg Prod.snd hmap⟩
      exact ⟨hc, hstep, by simpa using hle⟩
  · rintro ⟨hmem, hstep, hle⟩
    exact ⟨⟨cp, hmem, by rw [hstep]; rfl⟩, by simpa using hle⟩

theorem select_checkpoint_step (n : Nat) (cps : List Checkpoint) :
    select_checkpoint (.step n) cps = (maxByKeyLast (steppedAtMost cps n)).map Prod.snd :=
  rfl

/-- C7: the `step:N` fork selector resolves to a checkpoint carrying the
largest numeric step at most `N`; with no match, a strict fork fails with
`strict_source_unavailable` while a non-strict fork yields no source
checkpoint; with a match whose resolved path does not exist, strict fails
the same way while non-strict yields no source checkpoint; and an absent
source checkpoint gives manifest `fallback_mode` `input_only`. -/
theorem fork_step_selector_spec :
    (∀ cps (n : Nat) (cp : Checkpoint), select_checkpoint (.step n) cps = some cp →
      ∃ s, cp.step = some s ∧ s ≤ n ∧ cp ∈ cps
        ∧ ∀ cp2 ∈ cps, ∀ s', cp2.step = some s' → s' ≤ n → s' ≤ s)
    ∧ (∀ cps (n : Nat), (∃ cp ∈ cps, ∃ s, cp.step = some s ∧ s ≤ n) →
        (select_checkpoint (.step n) cps).isSome = true)
    ∧ (∀ cps (n : Nat) td ex, select_checkpoint (.step n) cps = none →
        resolve_selector_checkpoint (.step n) cps td ex true
            = Except.error "strict_source_unavailable"
        ∧ resolve_selector_checkpoint (.step n) cps td ex false = Except.ok none)
    ∧ (∀ cps (n : Nat) td ex cp raw, select_checkpoint (.step n) cps = some cp →
        cp.path = some raw → ex (resolve_event_path_for_trial raw td) = false →
        resolve_selector_checkpoint (.step n) cps td ex true
            = Except.error "strict_source_unavailable"
        ∧ resolve_selector_checkpoint (.step n) cps td ex false = Except.ok none)
    ∧ fork_fallback_mode none = "input_only" := by
  refine ⟨?_, ?_, ?_, ?_, rfl⟩
  · intro cps n cp hsel
    rw [select_checkpoint_step] at hsel
    rcases hm : maxByKeyLast (steppedAtMost cps n) with _ | b <;> rw [hm] at hsel
    · cases hsel
    · simp only [Option.map_some', Option.some.injEq] at hsel
      obtain rfl : b.2 = cp := hsel
      obtain ⟨hmem, hmax⟩ := (maxByKeyLast_spec (steppedAtMost cps n)).2 b hm
      obtain ⟨hbc, hbs, hbn⟩ := (mem_steppedAtMost cps n b.1 b.2).mp (by
        simpa using hmem)
      refine ⟨b.1, hbs, hbn, hbc, ?_⟩
      intro cp2 h2 s' hs' hn'
      exact hmax (s', cp2) ((mem_steppedAtMost cps n s' cp2).mpr ⟨h2, hs', hn'⟩)
  · intro cps n ⟨cp, hmem, s, hstep, hle⟩
    rw [select_checkpoint_step]
    rcases hm : maxByKeyLast (steppedAtMost cps n) with _ | b
    · have h1 : steppedAtMost cps n = [] := ((maxByKeyLast_spec _).1).mp hm
      have h2 : (s, cp) ∈ steppedAtMost cps n :=
        (mem_steppedAtMost cps n s cp).mpr ⟨hmem, hstep, hle⟩
      rw [h1] at h2
      cases h2
    · rfl
  · intro cps n td ex hnone
    unfold resolve_selector_checkpoint
    rw [hnone]
    exact ⟨rfl, rfl⟩
  · intro cps n td ex cp raw hsel hpath hex
    unfold resolve_selector_checkpoint
    rw [hsel]
    simp only []
    rw [hpath]
    simp only [hex]
    constructor
    · rw [if_pos (by simp)]
    · rw [if_neg (by simp), if_neg (by simp)]
/-- C7 witness: one checkpoint at step 3 with selector `step:2` (no match):
strict errors with `strict_source_unavailable`, non-strict returns no
source checkpoint. -/
theorem fork_step_selector_spec_witness :
    resolve_selector_checkpoint (.step 2)
        [⟨some "cp1", some "/state/cp1", some 3⟩] "/runs/run_1/trials/trial_1"
        (fun _ => false) true
      = Except.error "strict_source_unavailable"
    ∧ resolve_selector_checkpoint (.step 2)
        [⟨some "cp1", some "/state/cp1", some 3⟩] "/runs/run_1/trials/trial_1"
        (fun _ => false) false
      = Except.ok none :=
  fork_step_selector_spec.2.2.1 [⟨some "cp1", some "/state/cp1", some 3⟩] 2
    "/runs/run_1/trials/trial_1" (fun _ => false) rfl

end LabRunner
